import Mathlib

/-!
# Verification of depmanager's detection-and-dispatch core

Shallow embedding of the core logic of the `depmanager` CLI tool
(`src/depmanager.ts`, `src/cli.ts`): yarn-version classification,
workspace-manifest reading, package-manager detection, and the
security-audit dispatcher across workspace directories.

JavaScript strings are modelled as Lean `String`s (with character-list
helpers where recursion over characters is needed); `null`/`undefined`
values are modelled with `Option`; filesystem reads and external-command
results are passed in explicitly as environment records; a function that
can throw is modelled with an explicit `threw` flag so that try/catch
structure is visible.
-/

namespace Depmanager

/-- JavaScript truthiness of a `string | null | undefined` value:
`null`, `undefined` and the empty string are falsy (`!version` in
`getYarnVersionType`, `!pmInfo.version` in the CLI). -/
def jsFalsyStr : Option String → Bool
  | none => true
  | some s => s = ""

/-- JavaScript whitespace skipped by `parseInt` before parsing. -/
def isJsSpace (c : Char) : Bool :=
  c = ' ' ∨ c = '\t' ∨ c = '\n' ∨ c = '\r' ∨ c = '\x0b' ∨ c = '\x0c'

/-- Decimal digit test over characters. -/
def isDigitChar (c : Char) : Bool :=
  '0' ≤ c ∧ c ≤ '9'

/-- Numeric value of the leading run of decimal digits, or `none` when the
list does not start with a digit (JS `parseInt` yields `NaN` then). -/
def leadingDigitsVal : List Char → Option Nat
  | [] => none
  | c :: cs =>
    if isDigitChar c then
      some (leadingDigitsValAux (c.toNat - '0'.toNat) cs)
    else
      none
where
  /-- Accumulate further leading digits onto `acc`. -/
  leadingDigitsValAux (acc : Nat) : List Char → Nat
    | [] => acc
    | c :: cs =>
      if isDigitChar c then leadingDigitsValAux (10 * acc + (c.toNat - '0'.toNat)) cs
      else acc

/-- JavaScript `parseInt(s, 10)`: skip leading whitespace, read an optional
sign, then the leading run of decimal digits; `none` models `NaN`. -/
def parseIntTen (s : String) : Option Int :=
  match s.data.dropWhile isJsSpace with
  | '-' :: rest => (leadingDigitsVal rest).map (fun n => -(n : Int))
  | '+' :: rest => (leadingDigitsVal rest).map (fun n => (n : Int))
  | cs => (leadingDigitsVal cs).map (fun n => (n : Int))

/-- The characters of a string before the first `'.'`
(JS `version.split('.')[0]`). -/
def beforeFirstDot : List Char → List Char
  | [] => []
  | c :: cs => if c = '.' then [] else c :: beforeFirstDot cs

/-- The JS expression `version.split(".")[0]` as a `String`. -/
def firstComponent (s : String) : String :=
  ⟨beforeFirstDot s.data⟩

/-- JS `x >= k` where `x` may be `NaN` (modelled `none`): any comparison
with `NaN` is false. -/
def jsGeNum (x : Option Int) (k : Int) : Bool :=
  match x with
  | none => false
  | some n => k ≤ n

/-- Runtime values of the `type` field of `PackageManagerInfo`
(npm, yarn1, yarn2+). -/
inductive PMType
  | npm
  | yarn1
  | yarn2plus
deriving DecidableEq, Repr

/-- Function `getYarnVersionType` (src/depmanager.ts:40-44): `null` for falsy input,
else classify by whether parseInt of the first dot-separated component is at least 2.
`YarnVersionType` (yarn1, yarn2+ or null) is `Option PMType`
restricted to the yarn constructors. -/
def getYarnVersionType (version : Option String) : Option PMType :=
  if jsFalsyStr version then none
  else
    match version with
    | none => none
    | some v =>
      let majorVersion := parseIntTen (firstComponent v)
      some (if jsGeNum majorVersion 2 then .yarn2plus else .yarn1)

example : getYarnVersionType (some "2.4.3") = some .yarn2plus := by decide
example : getYarnVersionType (some "1.22.19") = some .yarn1 := by decide
example : getYarnVersionType (some "4.0.0") = some .yarn2plus := by decide
example : getYarnVersionType (some "0.27.5") = some .yarn1 := by decide
example : getYarnVersionType (some "2.0.0-beta.1") = some .yarn2plus := by decide
example : getYarnVersionType none = none := by decide
example : getYarnVersionType (some "") = none := by decide
example : getYarnVersionType (some "abc") = some .yarn1 := by decide

/-! ## Manifest model and `getWorkspaceInfo` -/

/-- Shape of the `workspaces` field of a parsed `package.json`
(`string[] | {packages: string[]; nohoist?: string[]} | absent`, from
src/types.ts). In `record` the `packages` field is `Option` because it may be
absent in untyped JSON; `packageJson.workspaces.packages` is then
`undefined` and falsy. -/
inductive WorkspacesField
  | absent
  | arr (patterns : List String)
  | record (packages : Option (List String)) (nohoist : Option (List String))
deriving DecidableEq, Repr

/-- The fields of a parsed `package.json` that the detection-and-dispatch
core reads. Only `workspaces` drives routing. -/
structure PackageJson where
  workspaces : WorkspacesField
deriving DecidableEq, Repr

/-- Outcome of locating and JSON-parsing a `package.json` file:
missing file, text that `JSON.parse` throws on, or a parsed record. -/
inductive ManifestFile
  | absent
  | malformed
  | parsed (pkg : PackageJson)
deriving DecidableEq, Repr

/-- Result record of `getWorkspaceInfo` (src/types.ts). -/
structure WorkspaceInfo where
  hasWorkspaces : Bool
  packages : List String
deriving DecidableEq, Repr

/-- Function `getWorkspaceInfo` (src/depmanager.ts:49-70), as a function of the
outcome of reading `projectDir/package.json`: a missing file returns the
empty record, a `JSON.parse` exception is caught and returns the empty
record; otherwise an array-valued `workspaces` is returned verbatim, a
record-valued `workspaces` with a truthy `packages` field returns that
field, and anything else yields the empty record. -/
def getWorkspaceInfo (file : ManifestFile) : WorkspaceInfo :=
  match file with
  | .absent => { hasWorkspaces := false, packages := [] }
  | .malformed => { hasWorkspaces := false, packages := [] }
  | .parsed pkg =>
    match pkg.workspaces with
    | .absent => { hasWorkspaces := false, packages := [] }
    | .arr patterns => { hasWorkspaces := true, packages := patterns }
    | .record packages _nohoist =>
      match packages with
      | some ps => { hasWorkspaces := true, packages := ps }
      | none => { hasWorkspaces := false, packages := [] }

example :
    getWorkspaceInfo (.parsed ⟨.arr ["packages/*", "apps/*"]⟩) =
      ⟨true, ["packages/*", "apps/*"]⟩ := by decide

example :
    getWorkspaceInfo
        (.parsed ⟨.record (some ["packages/*", "tools/*"]) (some ["x"])⟩) =
      ⟨true, ["packages/*", "tools/*"]⟩ := by decide

/-! ## Package-manager detection -/

/-- Record `PackageManagerInfo` (src/types.ts). `type` is declared
as npm, yarn1 or yarn2+, but the `yarnType!` non-null assertion in
`detectPackageManager` is erased at runtime, so the field can hold `null`;
it is therefore modelled as `Option PMType`. -/
structure PackageManagerInfo where
  manager : String
  version : Option String
  type : Option PMType
  displayName : String
deriving DecidableEq, Repr

/-- Environment probed by `detectPackageManager`: existence of the two
lock files in `projectDir`, and the result of `getYarnVersion`
(src/depmanager.ts:28-35) — the trimmed stdout of `yarn --version`, or
`none` when the command fails. -/
structure DetectEnv where
  hasYarnLock : Bool
  hasPackageLock : Bool
  yarnVersionResult : Option String
deriving DecidableEq, Repr

/-- JS template-literal rendering of a `string | null` value:
`null` prints as `"null"`. -/
def jsInterp : Option String → String
  | none => "null"
  | some s => s

/-- Function `detectPackageManager` (src/depmanager.ts:75-96): yarn lock wins,
then npm lock, then the npm default guess. -/
def detectPackageManager (env : DetectEnv) : PackageManagerInfo :=
  if env.hasYarnLock then
    let yarnVersion := env.yarnVersionResult
    let yarnType := getYarnVersionType yarnVersion
    { manager := "yarn"
      version := yarnVersion
      type := yarnType
      displayName :=
        if yarnType = some .yarn2plus then
          "yarn " ++ jsInterp yarnVersion ++ " (2+)"
        else
          "yarn " ++ jsInterp yarnVersion ++ " (1.x)" }
  else if env.hasPackageLock then
    { manager := "npm", version := none, type := some .npm, displayName := "npm" }
  else
    { manager := "npm", version := none, type := some .npm, displayName := "npm (default)" }

example :
    detectPackageManager ⟨true, true, some "2.4.3"⟩ =
      ⟨"yarn", some "2.4.3", some .yarn2plus, "yarn 2.4.3 (2+)"⟩ := by decide

example :
    detectPackageManager ⟨true, false, none⟩ =
      ⟨"yarn", none, none, "yarn null (1.x)"⟩ := by decide

example :
    detectPackageManager ⟨false, true, none⟩ =
      ⟨"npm", none, some .npm, "npm"⟩ := by decide

/-! ## Filesystem model and the audit dispatcher -/

/-- The filesystem operations the dispatcher uses, as pure maps from
paths: `fs.existsSync`, `fs.readdirSync` (entries in filesystem-listing
order), `fs.statSync(...).isDirectory()`, and the outcome of reading and
`JSON.parse`-ing the file at a path. -/
structure FSModel where
  fileExists : String → Bool
  dirEntries : String → List String
  isDirectory : String → Bool
  parseFile : String → Option PackageJson
deriving Inhabited

/-- The JS call `path.join(a, b)` for the relative segments the dispatcher joins. -/
def pjoin (a b : String) : String :=
  a ++ "/" ++ b

/-- Outcome of locating and parsing `dir/package.json` through the
filesystem model, the read performed by `getWorkspaceInfo`
(src/depmanager.ts:51-57). -/
def readManifest (fs : FSModel) (dir : String) : ManifestFile :=
  if fs.fileExists (pjoin dir "package.json") then
    match fs.parseFile (pjoin dir "package.json") with
    | some pkg => .parsed pkg
    | none => .malformed
  else
    .absent

/-- Remove the first occurrence of the two-character substring `"/*"`
from a character list: JS `pattern.replace` with a string
pattern replaces only the first match (src/cli.ts:120). -/
def stripFirstSlashStar : List Char → List Char
  | [] => []
  | [c] => [c]
  | a :: b :: rest =>
    if a = '/' ∧ b = '*' then rest
    else a :: stripFirstSlashStar (b :: rest)

/-- Whether a character list contains the substring `"/*"`. -/
def hasSlashStar : List Char → Bool
  | [] => false
  | [_] => false
  | a :: b :: rest =>
    if a = '/' ∧ b = '*' then true
    else hasSlashStar (b :: rest)

/-- The JS call `pattern.replace` removing `/*` as used to derive a base directory from a
workspace glob pattern (src/cli.ts:120). -/
def basePathOf (pattern : String) : String :=
  ⟨stripFirstSlashStar pattern.data⟩

example : basePathOf "packages/*" = "packages" := by decide
example : basePathOf "apps/web" = "apps/web" := by decide
example : basePathOf "a/*/b" = "a/b" := by decide

/-- Workspace-member directories produced by one glob pattern
(src/cli.ts:119-131): if the pattern's base directory exists under `cwd`,
its immediate entries that are directories containing their own
`package.json`, in listing order; otherwise nothing. -/
def patternMembers (fs : FSModel) (cwd : String) (pattern : String) : List String :=
  let basePath := basePathOf pattern
  if fs.fileExists (pjoin cwd basePath) then
    (fs.dirEntries (pjoin cwd basePath)).filterMap (fun entry =>
      let packagePath := pjoin (pjoin cwd basePath) entry
      if fs.isDirectory packagePath ∧ fs.fileExists (pjoin packagePath "package.json") then
        some packagePath
      else
        none)
  else
    []

/-- The ordered list of directories on which `runSecurityAudit`
(src/cli.ts:108-135) invokes `runSecurityAuditForDirectory`: just the
root for a non-workspace project; for a workspace project the root first,
then each pattern's members in declaration order. -/
def auditTargets (fs : FSModel) (cwd : String) : List String :=
  let workspaceInfo := getWorkspaceInfo (readManifest fs cwd)
  if workspaceInfo.hasWorkspaces then
    cwd :: workspaceInfo.packages.flatMap (patternMembers fs cwd)
  else
    [cwd]

/-- Observable external effects of the per-directory audit step:
invocations of `runYarnAudit` (with the yarn-type argument it receives)
and `runNpmAudit`, and the two diagnostic messages printed when an audit
cannot be completed (src/cli.ts:162-168,176-178). -/
inductive AuditEvent
  | yarnAudit (dir : String) (yarnType : Option PMType)
  | npmAudit (dir : String)
  | failDiag (dir : String)
  | rootSkipDiag (dir : String)
deriving DecidableEq, Repr

/-- Failure oracle for the external audit commands, one flag per call
site of the per-directory step: whether `runYarnAudit` throws at a
directory, whether the first (pre-fallback) `runNpmAudit` throws there,
and whether the fallback `runNpmAudit` in the catch handler throws. -/
structure AuditOutcomes where
  yarnAuditFails : String → Bool
  npmDirectFails : String → Bool
  npmFallbackFails : String → Bool
deriving Inhabited

/-- Result of one translated statement block: the external events it
emitted, and whether it terminated by throwing. -/
structure StepResult where
  events : List AuditEvent
  threw : Bool
deriving DecidableEq, Repr

/-- The catch handler of the yarn branch of `runSecurityAuditForDirectory`
(src/cli.ts:153-169): fall back to `runNpmAudit` unless the directory is
`process.cwd()` of a workspace-enabled project; the fallback's own failure
is caught and turned into a diagnostic, so the handler never throws. -/
def yarnAuditCatch (fs : FSModel) (oc : AuditOutcomes) (cwd directory : String) :
    List AuditEvent :=
  if directory ≠ cwd ∨ (getWorkspaceInfo (readManifest fs cwd)).hasWorkspaces = false then
    .npmAudit directory ::
      (if oc.npmFallbackFails directory then [.failDiag directory] else [])
  else
    [.rootSkipDiag directory]

/-- Function `runSecurityAuditForDirectory` (src/cli.ts:140-181). The yarn branch
wraps its body in try/catch: a falsy `pmInfo.version` triggers a direct
`runNpmAudit`, otherwise `runYarnAudit` runs with
a yarn-type argument that is null when the type is npm; a throw from either lands in
`yarnAuditCatch`. The npm branch catches its own `runNpmAudit` failure and
prints a diagnostic. Console display of successful results is a pure
formatting concern and is not recorded as an event. -/
def runSecurityAuditForDirectory (fs : FSModel) (oc : AuditOutcomes)
    (cwd directory : String) (pmInfo : PackageManagerInfo) : StepResult :=
  if pmInfo.manager = "yarn" then
    let body : StepResult :=
      if jsFalsyStr pmInfo.version then
        { events := [.npmAudit directory], threw := oc.npmDirectFails directory }
      else
        { events := [.yarnAudit directory
            (if pmInfo.type = some .npm then none else pmInfo.type)]
          threw := oc.yarnAuditFails directory }
    if body.threw then
      { events := body.events ++ yarnAuditCatch fs oc cwd directory, threw := false }
    else
      body
  else
    let body : StepResult :=
      { events := [.npmAudit directory], threw := oc.npmDirectFails directory }
    if body.threw then
      { events := body.events ++ [.failDiag directory], threw := false }
    else
      body

/-- Sequential walk over the audit targets, awaiting each per-directory
step; a step that threw would propagate and abort the remaining targets
(this models the `await` chain in `runSecurityAudit`). -/
def auditWalk (fs : FSModel) (oc : AuditOutcomes) (cwd : String)
    (pmInfo : PackageManagerInfo) : List String → StepResult
  | [] => { events := [], threw := false }
  | d :: ds =>
    let r := runSecurityAuditForDirectory fs oc cwd d pmInfo
    if r.threw then r
    else
      let rest := auditWalk fs oc cwd pmInfo ds
      { events := r.events ++ rest.events, threw := rest.threw }

/-- Function `runSecurityAudit` (src/cli.ts:108-135): run the per-directory step
over `auditTargets` in order. -/
def runSecurityAudit (fs : FSModel) (oc : AuditOutcomes) (cwd : String)
    (pmInfo : PackageManagerInfo) : StepResult :=
  auditWalk fs oc cwd pmInfo (auditTargets fs cwd)

/-! ## Concrete sample environments -/

/-- A workspace project at `/proj` declaring `workspaces: ["packages/*"]`,
with two member directories `packages/a` and `packages/b`, each holding
its own `package.json`. -/
def wsFS : FSModel where
  fileExists p :=
    p = "/proj/package.json" ∨ p = "/proj/packages" ∨
      p = "/proj/packages/a/package.json" ∨ p = "/proj/packages/b/package.json"
  dirEntries p := if p = "/proj/packages" then ["a", "b"] else []
  isDirectory p := p = "/proj/packages/a" ∨ p = "/proj/packages/b"
  parseFile p :=
    if p = "/proj/package.json" then some ⟨.arr ["packages/*"]⟩ else none

/-- A plain (non-workspace) project at `/solo`. -/
def noWsFS : FSModel where
  fileExists p := p = "/solo/package.json"
  dirEntries _ := []
  isDirectory _ := false
  parseFile p := if p = "/solo/package.json" then some ⟨.absent⟩ else none

/-- A project at `/p` whose manifest declares the workspace pattern
`"a/*/b"`, which contains `/*` in a non-trailing position; directory
`a/b` exists and has one member `c` with its own manifest, while no path
named literally `a/*/b` exists. -/
def midStarFS : FSModel where
  fileExists p :=
    p = "/p/package.json" ∨ p = "/p/a/b" ∨ p = "/p/a/b/c/package.json"
  dirEntries p := if p = "/p/a/b" then ["c"] else []
  isDirectory p := p = "/p/a/b/c"
  parseFile p := if p = "/p/package.json" then some ⟨.arr ["a/*/b"]⟩ else none

/-- An empty filesystem: nothing exists. -/
def emptyFS : FSModel where
  fileExists _ := false
  dirEntries _ := []
  isDirectory _ := false
  parseFile _ := none

/-- Failure oracle under which every external audit command fails. -/
def ocAllFail : AuditOutcomes where
  yarnAuditFails _ := true
  npmDirectFails _ := true
  npmFallbackFails _ := true

/-- Failure oracle under which every external audit command succeeds. -/
def ocAllOk : AuditOutcomes where
  yarnAuditFails _ := false
  npmDirectFails _ := false
  npmFallbackFails _ := false

/-- A detected yarn 1.x manager record. -/
def yarn1PM : PackageManagerInfo :=
  ⟨"yarn", some "1.22.19", some .yarn1, "yarn 1.22.19 (1.x)"⟩

/-- A yarn manager record whose version query failed
(`detectPackageManager` with a yarn lock but no working `yarn`). -/
def yarnNoVersionPM : PackageManagerInfo :=
  ⟨"yarn", none, none, "yarn null (1.x)"⟩

/-- A detected npm manager record. -/
def npmPM : PackageManagerInfo :=
  ⟨"npm", none, some .npm, "npm"⟩

example : auditTargets wsFS "/proj" =
    ["/proj", "/proj/packages/a", "/proj/packages/b"] := by decide
example : auditTargets noWsFS "/solo" = ["/solo"] := by decide
example : auditTargets midStarFS "/p" = ["/p", "/p/a/b/c"] := by decide

/-! ## C5: `getWorkspaceInfo` recovers from a missing or malformed manifest -/

/-- C5: for every directory, `getWorkspaceInfo` returns
`{hasWorkspaces: false, packages: []}` when the directory's manifest file
is absent or when its content fails to parse; the embedded function is
total, so no exception escapes (the source catches the `JSON.parse`
throw at src/depmanager.ts:67-69). -/
theorem getWorkspaceInfo_missing_or_malformed (fs : FSModel) (dir : String) :
    (fs.fileExists (pjoin dir "package.json") = false →
      getWorkspaceInfo (readManifest fs dir) = ⟨false, []⟩) ∧
    (fs.parseFile (pjoin dir "package.json") = none →
      getWorkspaceInfo (readManifest fs dir) = ⟨false, []⟩) ∧
    getWorkspaceInfo .absent = ⟨false, []⟩ ∧
    getWorkspaceInfo .malformed = ⟨false, []⟩ := by
  refine ⟨fun h => ?_, fun h => ?_, rfl, rfl⟩
  · simp [readManifest, h, getWorkspaceInfo]
  · unfold readManifest
    split
    · simp [h, getWorkspaceInfo]
    · simp [getWorkspaceInfo]

/-- Witness for C5 at a concrete directory with no manifest file. -/
theorem getWorkspaceInfo_missing_or_malformed_witness :
    getWorkspaceInfo (readManifest emptyFS "/nowhere") = ⟨false, []⟩ :=
  (getWorkspaceInfo_missing_or_malformed emptyFS "/nowhere").1 rfl

/-! ## C6: `getWorkspaceInfo` on well-formed workspace declarations -/

/-- C6: a manifest whose `workspaces` is a record with a `packages` field
yields that sequence with `hasWorkspaces` true, independently of
`nohoist` (whose entries are never added to the result); a manifest whose
`workspaces` is an array yields it verbatim with `hasWorkspaces` true. -/
theorem getWorkspaceInfo_workspaces (ps : List String) (nh : Option (List String)) :
    getWorkspaceInfo (.parsed ⟨.record (some ps) nh⟩) = ⟨true, ps⟩ ∧
    getWorkspaceInfo (.parsed ⟨.arr ps⟩) = ⟨true, ps⟩ ∧
    (∀ x, x ∈ (getWorkspaceInfo (.parsed ⟨.record (some ps) nh⟩)).packages → x ∈ ps) := by
  refine ⟨rfl, rfl, fun x hx => ?_⟩
  simpa [getWorkspaceInfo] using hx

/-- Witness for C6 at the spec's concrete example, with a `nohoist` list
disjoint from `packages`. -/
theorem getWorkspaceInfo_workspaces_witness :
    getWorkspaceInfo
        (.parsed ⟨.record (some ["packages/*", "tools/*"]) (some ["pkg/x"])⟩) =
      ⟨true, ["packages/*", "tools/*"]⟩ ∧
    "packages/*" ∈ ["packages/*", "tools/*"] :=
  ⟨(getWorkspaceInfo_workspaces ["packages/*", "tools/*"] (some ["pkg/x"])).1,
   (getWorkspaceInfo_workspaces ["packages/*", "tools/*"] (some ["pkg/x"])).2.2
     "packages/*" (by decide)⟩

/-! ## C7: lock-file priority in `detectPackageManager` -/

/-- C7: a yarn lock file wins regardless of an npm lock file; otherwise
an npm lock file yields the plain npm record; otherwise the npm record
with the `"npm (default)"` display. -/
theorem detectPackageManager_priority (pl : Bool) (q : Option String) :
    (detectPackageManager ⟨true, pl, q⟩).manager = "yarn" ∧
    detectPackageManager ⟨false, true, q⟩ = ⟨"npm", none, some .npm, "npm"⟩ ∧
    detectPackageManager ⟨false, false, q⟩ =
      ⟨"npm", none, some .npm, "npm (default)"⟩ := by
  refine ⟨?_, rfl, rfl⟩
  simp [detectPackageManager]

/-! ## C8: yarn display names -/

/-- C8: with a yarn lock present, the display name is
`"yarn <version> (2+)"` when the version classifies as yarn 2+ and
`"yarn <version> (1.x)"` when it classifies as yarn 1.x; when the
version query fails the manager is still `yarn`, the version is absent,
and the display renders the unknown version (`"yarn null (1.x)"`, the
absent version printing as `null`). -/
theorem detectPackageManager_yarn_display (pl : Bool) (q : String) :
    (getYarnVersionType (some q) = some PMType.yarn2plus →
      (detectPackageManager ⟨true, pl, some q⟩).displayName = "yarn " ++ q ++ " (2+)") ∧
    (getYarnVersionType (some q) = some PMType.yarn1 →
      (detectPackageManager ⟨true, pl, some q⟩).displayName = "yarn " ++ q ++ " (1.x)") ∧
    ((detectPackageManager ⟨true, pl, none⟩).manager = "yarn" ∧
      (detectPackageManager ⟨true, pl, none⟩).version = none ∧
      (detectPackageManager ⟨true, pl, none⟩).displayName = "yarn null (1.x)") := by
  refine ⟨fun h => ?_, fun h => ?_, ?_, ?_, ?_⟩
  · simp [detectPackageManager, h, jsInterp]
  · simp [detectPackageManager, h, jsInterp]
  · simp [detectPackageManager]
  · simp [detectPackageManager]
  · simp [detectPackageManager, getYarnVersionType, jsFalsyStr, jsInterp]

/-- Witness for C8 at concrete yarn 2+ and yarn 1.x versions. -/
theorem detectPackageManager_yarn_display_witness :
    (detectPackageManager ⟨true, false, some "2.4.3"⟩).displayName =
      "yarn " ++ "2.4.3" ++ " (2+)" ∧
    (detectPackageManager ⟨true, false, some "0.27.5"⟩).displayName =
      "yarn " ++ "0.27.5" ++ " (1.x)" :=
  ⟨(detectPackageManager_yarn_display false "2.4.3").1 (by decide),
   (detectPackageManager_yarn_display false "0.27.5").2.1 (by decide)⟩

/-! ## C1: classification of version strings -/

/-- C1 counterexample: the unparsable non-empty version string `"abc"`
classifies as `yarn1`, not as `null` (in the source, `parseInt` yields
`NaN` and the comparison with 2 is false, so the else branch returns yarn1). -/
theorem getYarnVersionType_unparsable_counterexample :
    getYarnVersionType (some "abc") = some PMType.yarn1 ∧
    getYarnVersionType (some "abc") ≠ none := by decide

/-- C1 (amended): `getYarnVersionType` returns `null` exactly on
null/undefined/empty input; on non-empty input it returns `yarn2+`
exactly when `parseInt` of the substring before the first `.` yields a
value `≥ 2`, and `yarn1` in every other case — including when that parse
fails (`NaN`), so unparsable non-empty strings classify as `yarn1`. -/
theorem getYarnVersionType_classification (v : Option String) :
    (getYarnVersionType v = none ↔ v = none ∨ v = some "") ∧
    (getYarnVersionType v = some PMType.yarn2plus ↔
      ∃ s, v = some s ∧ s ≠ "" ∧
        ∃ n, parseIntTen (firstComponent s) = some n ∧ 2 ≤ n) ∧
    (getYarnVersionType v = some PMType.yarn1 ↔
      ∃ s, v = some s ∧ s ≠ "" ∧
        ∀ n, parseIntTen (firstComponent s) = some n → n < 2) := by
  rcases v with _ | s
  · refine ⟨by simp [getYarnVersionType], ?_, ?_⟩ <;>
      simp [getYarnVersionType, jsFalsyStr]
  · by_cases hs : s = ""
    · subst hs
      refine ⟨by simp [getYarnVersionType, jsFalsyStr], ?_, ?_⟩ <;>
        simp [getYarnVersionType, jsFalsyStr]
    · have hg : getYarnVersionType (some s) =
          some (if jsGeNum (parseIntTen (firstComponent s)) 2 then
            PMType.yarn2plus else PMType.yarn1) := by
        simp [getYarnVersionType, jsFalsyStr, hs]
      rcases hp : parseIntTen (firstComponent s) with _ | n
      · rw [hp] at hg
        have hy : getYarnVersionType (some s) = some PMType.yarn1 := hg.trans rfl
        refine ⟨by simp [hy, hs], ?_, ?_⟩
        · rw [hy]
          constructor
          · intro h
            exact absurd h (by simp)
          · rintro ⟨t, ht, -, m, hm, -⟩
            cases ht
            rw [hp] at hm
            exact absurd hm (by simp)
        · rw [hy]
          exact ⟨fun _ => ⟨s, rfl, hs, fun m hm => by
              rw [hp] at hm; exact absurd hm (by simp)⟩,
            fun _ => rfl⟩
      · rw [hp] at hg
        have hge : jsGeNum (some n) 2 = decide (2 ≤ n) := rfl
        by_cases h2 : 2 ≤ n
        · rw [hge, decide_eq_true h2] at hg
          have hy : getYarnVersionType (some s) = some PMType.yarn2plus :=
            hg.trans rfl
          refine ⟨by simp [hy, hs], ?_, ?_⟩
          · rw [hy]
            exact ⟨fun _ => ⟨s, rfl, hs, n, hp, h2⟩, fun _ => rfl⟩
          · rw [hy]
            constructor
            · intro h
              exact absurd h (by simp)
            · rintro ⟨t, ht, -, hall⟩
              cases ht
              exact absurd (hall n hp) (by omega)
        · rw [hge, decide_eq_false h2] at hg
          have hy : getYarnVersionType (some s) = some PMType.yarn1 :=
            hg.trans rfl
          refine ⟨by simp [hy, hs], ?_, ?_⟩
          · rw [hy]
            constructor
            · intro h
              exact absurd h (by simp)
            · rintro ⟨t, ht, -, m, hm, h2m⟩
              cases ht
              rw [hp] at hm
              rw [Option.some.injEq] at hm
              omega
          · rw [hy]
            refine ⟨fun _ => ⟨s, rfl, hs, fun m hm => ?_⟩, fun _ => rfl⟩
            rw [hp] at hm
            rw [Option.some.injEq] at hm
            omega

/-- Witness for C1 (amended) at two concrete versions, one parsable and
one unparsable. -/
theorem getYarnVersionType_classification_witness :
    getYarnVersionType (some "2.0.0-beta.1") = some PMType.yarn2plus ∧
    getYarnVersionType (some "x.y") = some PMType.yarn1 :=
  ⟨(getYarnVersionType_classification (some "2.0.0-beta.1")).2.1.mpr
      ⟨"2.0.0-beta.1", rfl, by decide, 2, by decide, by decide⟩,
   (getYarnVersionType_classification (some "x.y")).2.2.mpr
      ⟨"x.y", rfl, by decide, fun n hn => by
        rw [show parseIntTen (firstComponent "x.y") = none from by decide] at hn
        exact absurd hn (by simp)⟩⟩

/-! ## C2: which directories the dispatcher audits, and in which order -/

/-- C2: a project without workspaces gets exactly one audit, on the root;
a workspace project is audited root first, then pattern by pattern in
declaration order, each contributing its member directories in listing
order; on the two-member `packages/*` sample this is exactly three
audits with the root first. -/
theorem auditTargets_shape (fs : FSModel) (cwd : String) :
    ((getWorkspaceInfo (readManifest fs cwd)).hasWorkspaces = false →
      auditTargets fs cwd = [cwd]) ∧
    ((getWorkspaceInfo (readManifest fs cwd)).hasWorkspaces = true →
      auditTargets fs cwd =
        cwd :: (getWorkspaceInfo (readManifest fs cwd)).packages.flatMap
          (patternMembers fs cwd)) ∧
    auditTargets wsFS "/proj" =
      ["/proj", "/proj/packages/a", "/proj/packages/b"] := by
  refine ⟨fun h => ?_, fun h => ?_, by decide⟩
  · simp [auditTargets, h]
  · simp [auditTargets, h]

/-- Witness for C2 at a concrete non-workspace project. -/
theorem auditTargets_shape_witness :
    auditTargets noWsFS "/solo" = ["/solo"] :=
  (auditTargets_shape noWsFS "/solo").1 (by decide)

/-! ## C4: how a glob pattern becomes a base directory -/

/-- C4 counterexample: the pattern `a/*/b` has no trailing `/*`, so per the claim
it would be used verbatim as the base directory; the code instead removes
the FIRST occurrence of `/*` (JS `replace` with a string pattern),
yielding base `a/b`, and on `midStarFS` it therefore audits
`/p/a/b/c` — whereas a verbatim base `a/*/b` names no existing
directory, so the claim predicts no member audits at all. -/
theorem basePath_not_verbatim_counterexample :
    basePathOf "a/*/b" = "a/b" ∧
    basePathOf "a/*/b" ≠ "a/*/b" ∧
    auditTargets midStarFS "/p" = ["/p", "/p/a/b/c"] := by decide

/-- Helper: a character list without the substring `"/*"` is returned
unchanged by `stripFirstSlashStar`. -/
theorem stripFirstSlashStar_of_not_has :
    ∀ cs : List Char, hasSlashStar cs = false → stripFirstSlashStar cs = cs
  | [], _ => rfl
  | [_], _ => rfl
  | a :: b :: rest, h => by
    by_cases hc : a = '/' ∧ b = '*'
    · rw [hasSlashStar, if_pos hc] at h
      simp at h
    · rw [hasSlashStar, if_neg hc] at h
      rw [stripFirstSlashStar, if_neg hc,
        stripFirstSlashStar_of_not_has (b :: rest) h]

/-- Helper: appending `"/*"` to a `"/*"`-free prefix and stripping the
first occurrence recovers the prefix. -/
theorem stripFirstSlashStar_append :
    ∀ cs : List Char, hasSlashStar cs = false →
      stripFirstSlashStar (cs ++ ['/', '*']) = cs
  | [], _ => rfl
  | [c], _ => by
    have hc : ¬(c = '/' ∧ '/' = '*') := by simp
    show stripFirstSlashStar (c :: '/' :: '*' :: []) = [c]
    rw [stripFirstSlashStar, if_neg hc,
      show stripFirstSlashStar ['/', '*'] = [] from by decide]
  | a :: b :: rest, h => by
    by_cases hc : a = '/' ∧ b = '*'
    · rw [hasSlashStar, if_pos hc] at h
      simp at h
    · rw [hasSlashStar, if_neg hc] at h
      show stripFirstSlashStar (a :: b :: (rest ++ ['/', '*'])) = a :: b :: rest
      rw [stripFirstSlashStar, if_neg hc, ← List.cons_append,
        stripFirstSlashStar_append (b :: rest) h]

/-- C4 (amended): the base directory is the pattern with the FIRST
occurrence of the substring `/*` removed — patterns containing no
`/*` at all are used verbatim, and for patterns whose only `/*` is a
trailing suffix this coincides with stripping that suffix; no glob
expansion happens, and a pattern's audited members are exactly the
immediate children of its base directory that are directories holding
their own manifest. -/
theorem patternMembers_base_strip (fs : FSModel) (cwd pat : String) :
    (hasSlashStar pat.data = false → basePathOf pat = pat) ∧
    (∀ s : String, hasSlashStar s.data = false → basePathOf (s ++ "/*") = s) ∧
    (∀ d, d ∈ patternMembers fs cwd pat ↔
      fs.fileExists (pjoin cwd (basePathOf pat)) = true ∧
      ∃ e ∈ fs.dirEntries (pjoin cwd (basePathOf pat)),
        d = pjoin (pjoin cwd (basePathOf pat)) e ∧
        fs.isDirectory d = true ∧
        fs.fileExists (pjoin d "package.json") = true) := by
  refine ⟨fun h => ?_, fun s h => ?_, fun d => ?_⟩
  · unfold basePathOf
    rw [stripFirstSlashStar_of_not_has _ h]
  · unfold basePathOf
    rw [String.data_append, show ("/*" : String).data = ['/', '*'] from rfl,
      stripFirstSlashStar_append _ h]
  · unfold patternMembers
    dsimp only
    split_ifs with hex
    · simp only [List.mem_filterMap]
      constructor
      · rintro ⟨e, he, hsome⟩
        by_cases hcond :
            fs.isDirectory (pjoin (pjoin cwd (basePathOf pat)) e) = true ∧
              fs.fileExists
                (pjoin (pjoin (pjoin cwd (basePathOf pat)) e) "package.json") = true
        · rw [if_pos hcond, Option.some.injEq] at hsome
          subst hsome
          exact ⟨hex, e, he, rfl, hcond.1, hcond.2⟩
        · rw [if_neg hcond] at hsome
          exact absurd hsome (by simp)
      · rintro ⟨-, e, he, rfl, hdir, hman⟩
        exact ⟨e, he, by rw [if_pos ⟨hdir, hman⟩]⟩
    · simp only [List.not_mem_nil, false_iff]
      rintro ⟨hex2, -⟩
      exact hex hex2

/-- Witness for C4 (amended): the base of `packages/*` is `packages`, and
the sample member `/proj/packages/a` is characterized as an immediate
manifest-bearing child. -/
theorem patternMembers_base_strip_witness :
    basePathOf ("packages" ++ "/*") = "packages" ∧
    "/proj/packages/a" ∈ patternMembers wsFS "/proj" "packages/*" :=
  ⟨(patternMembers_base_strip wsFS "/proj" "packages/*").2.1 "packages" (by decide),
   ((patternMembers_base_strip wsFS "/proj" "packages/*").2.2
      "/proj/packages/a").mpr (by decide)⟩

/-! ## C3: npm fallback after a yarn-audit failure -/

/-- Helper: the events of the per-directory step in the yarn branch when
the version is truthy and the yarn audit fails: the yarn attempt followed
by the catch handler's events. -/
theorem step_events_yarn_failed (fs : FSModel) (oc : AuditOutcomes)
    (cwd d : String) (pm : PackageManagerInfo) (hm : pm.manager = "yarn")
    (hv : jsFalsyStr pm.version = false) (hf : oc.yarnAuditFails d = true) :
    (runSecurityAuditForDirectory fs oc cwd d pm).events =
      .yarnAudit d (if pm.type = some .npm then none else pm.type) ::
        yarnAuditCatch fs oc cwd d := by
  unfold runSecurityAuditForDirectory
  rw [if_pos hm]
  simp [hv, hf]

/-- C3: when the package manager is yarn (with a known version) and the
yarn audit for a directory fails, the step invokes exactly one npm audit
for that directory — unless the directory is the workspace root of a
workspace-enabled project, in which case no npm fallback occurs. -/
theorem yarn_fallback_policy (fs : FSModel) (oc : AuditOutcomes) (cwd d : String)
    (pm : PackageManagerInfo) (hm : pm.manager = "yarn")
    (hv : jsFalsyStr pm.version = false) (hf : oc.yarnAuditFails d = true) :
    ((d = cwd ∧ (getWorkspaceInfo (readManifest fs cwd)).hasWorkspaces = true) →
      (runSecurityAuditForDirectory fs oc cwd d pm).events.count
        (.npmAudit d) = 0) ∧
    ((d ≠ cwd ∨ (getWorkspaceInfo (readManifest fs cwd)).hasWorkspaces = false) →
      (runSecurityAuditForDirectory fs oc cwd d pm).events.count
        (.npmAudit d) = 1) := by
  rw [step_events_yarn_failed fs oc cwd d pm hm hv hf]
  constructor
  · intro hroot
    have hcatch : yarnAuditCatch fs oc cwd d = [.rootSkipDiag d] := by
      unfold yarnAuditCatch
      rw [if_neg (by simp [hroot.1, hroot.2])]
    simp [hcatch, List.count_cons]
  · intro hnot
    have hcatch : yarnAuditCatch fs oc cwd d =
        .npmAudit d ::
          (if oc.npmFallbackFails d then [.failDiag d] else []) := by
      unfold yarnAuditCatch
      rw [if_pos hnot]
    rcases hb : oc.npmFallbackFails d <;>
      simp [hcatch, hb, List.count_cons]

/-- Witness for C3 at a concrete non-root workspace member whose yarn
audit fails: exactly one npm fallback audit. -/
theorem yarn_fallback_policy_witness :
    (runSecurityAuditForDirectory wsFS ocAllFail "/proj" "/proj/packages/a"
        yarn1PM).events.count (.npmAudit "/proj/packages/a") = 1 :=
  (yarn_fallback_policy wsFS ocAllFail "/proj" "/proj/packages/a" yarn1PM
      rfl (by decide) rfl).2 (Or.inl (by decide))

/-! ## C9: failures are contained per target and the walk continues -/

/-- Helper: the per-directory audit step never lets an exception escape:
every branch either succeeds or ends in a catch handler. -/
theorem step_never_throws (fs : FSModel) (oc : AuditOutcomes) (cwd d : String)
    (pm : PackageManagerInfo) :
    (runSecurityAuditForDirectory fs oc cwd d pm).threw = false := by
  unfold runSecurityAuditForDirectory
  dsimp only
  split_ifs with h1 h2 h3 <;> simp_all

/-- Helper: a walk whose steps never throw visits every target and
concatenates their events in order. -/
theorem auditWalk_events (fs : FSModel) (oc : AuditOutcomes) (cwd : String)
    (pm : PackageManagerInfo) :
    ∀ l : List String, auditWalk fs oc cwd pm l =
      ⟨l.flatMap (fun d => (runSecurityAuditForDirectory fs oc cwd d pm).events),
        false⟩
  | [] => rfl
  | d :: ds => by
    unfold auditWalk
    rw [if_neg (by rw [step_never_throws fs oc cwd d pm]; simp),
      auditWalk_events fs oc cwd pm ds]
    simp [List.flatMap_cons]

/-- C9: a failing audit (including a failing npm fallback) is caught
inside the per-directory step — the step never throws — so the walk
reaches every target and emits each target's events in order; when both
attempts of the plain-npm path fail, the failure is converted into a
diagnostic event. -/
theorem audit_failures_contained (fs : FSModel) (oc : AuditOutcomes)
    (cwd : String) (pm : PackageManagerInfo) :
    (∀ d, (runSecurityAuditForDirectory fs oc cwd d pm).threw = false) ∧
    (runSecurityAudit fs oc cwd pm).threw = false ∧
    (runSecurityAudit fs oc cwd pm).events =
      (auditTargets fs cwd).flatMap
        (fun d => (runSecurityAuditForDirectory fs oc cwd d pm).events) ∧
    (∀ d, (runSecurityAuditForDirectory fs ocAllFail cwd d npmPM).events =
      [.npmAudit d, .failDiag d]) := by
  refine ⟨fun d => step_never_throws fs oc cwd d pm, ?_, ?_, fun d => ?_⟩
  · rw [runSecurityAudit, auditWalk_events]
  · rw [runSecurityAudit, auditWalk_events]
  · rfl

/-! ## C10: yarn manager with absent version audits via npm directly -/

/-- C10: for a directory audited with manager `yarn` but version `null`,
the step performs no yarn audit at all: its first action is an npm audit
of that directory, and this direct path applies uniformly — including at
the workspace root of a workspace-enabled project. -/
theorem yarn_version_absent_direct_npm (fs : FSModel) (oc : AuditOutcomes)
    (cwd d : String) (pm : PackageManagerInfo)
    (hm : pm.manager = "yarn") (hv : pm.version = none) :
    (∀ dir t, AuditEvent.yarnAudit dir t ∉
      (runSecurityAuditForDirectory fs oc cwd d pm).events) ∧
    (runSecurityAuditForDirectory fs oc cwd d pm).events.head? =
      some (.npmAudit d) := by
  have hfal : jsFalsyStr pm.version = true := by rw [hv]; rfl
  have hev : (runSecurityAuditForDirectory fs oc cwd d pm).events =
      .npmAudit d ::
        (if oc.npmDirectFails d then yarnAuditCatch fs oc cwd d else []) := by
    unfold runSecurityAuditForDirectory
    rw [if_pos hm]
    rcases hb : oc.npmDirectFails d <;> simp [hfal, hb]
  rw [hev]
  refine ⟨fun dir t => ?_, rfl⟩
  intro hmem
  rcases List.mem_cons.mp hmem with h | h
  · exact absurd h (by simp)
  · rcases hb : oc.npmDirectFails d
    · rw [hb] at h
      exact absurd h (by simp)
    · rw [hb] at h
      rw [if_pos rfl] at h
      unfold yarnAuditCatch at h
      split_ifs at h <;> simp_all

/-- Witness for C10 at the workspace root of a workspace-enabled project:
the direct npm path applies there too. -/
theorem yarn_version_absent_direct_npm_witness :
    (runSecurityAuditForDirectory wsFS ocAllFail "/proj" "/proj"
        yarnNoVersionPM).events.head? = some (.npmAudit "/proj") :=
  (yarn_version_absent_direct_npm wsFS ocAllFail "/proj" "/proj"
      yarnNoVersionPM rfl rfl).2

end Depmanager
